import Mathlib

set_option linter.unusedVariables false

/-! Shallow embedding of the ud-dashboard merge core (src/app/page.tsx with
the record type from src/lib/types.ts): raw prop records, JS-style string and
object/Map helpers, the name/stat normalizer, the merge-key builder, the merge
fold, the change-feed snapshot-store handler and the view sort comparator.
Nullable TS fields become `Option`, JS `number` line values become `ℚ`, and
ISO timestamp strings are compared lexicographically exactly as JS compares
strings. -/

/-- A raw prop record (`Prop` in src/lib/types.ts; the fields the dashboard
core reads — ingestion-only columns such as `appearance_id` are omitted).
The TS type declares `source: string`, but the dashboard defends against an
absent source with `p.source || 'underdog'`, so it is modelled as optional. -/
structure Prop' where
  id : String
  sport_id : String
  stat_type : String
  stat_value : Option ℚ
  over_price : Option String
  under_price : Option String
  status : String
  player_name : Option String
  team_abbr : Option String
  game_display : Option String
  updated_at : String
  source : Option String
  deriving DecidableEq, Repr

/-- JS `a || b` for an optional string `a`: `null`/`undefined` and `""` are
falsy and fall through to the default. -/
def jsStr : Option String → String → String
  | none, d => d
  | some s, d => if s = "" then d else s

/-- Lookup in a JS object / `Map` modelled as an insertion-ordered
association list. -/
def objGet {α : Type} (l : List (String × α)) (k : String) : Option α :=
  (l.find? (fun e => e.1 == k)).map (fun e => e.2)

/-- JS `obj[k] = v` / `Map.set`: an existing key keeps its position and gets
the new value, a new key is appended at the end. -/
def objSet {α : Type} : List (String × α) → String → α → List (String × α)
  | [], k, v => [(k, v)]
  | e :: es, k, v => if e.1 == k then (k, v) :: es else e :: objSet es k v

/-- JS `Map.delete k`. -/
def objDelete {α : Type} (l : List (String × α)) (k : String) :
    List (String × α) :=
  l.filter (fun e => !(e.1 == k))

/-- JS `String.prototype.trim` on a char list. -/
def jsTrim (l : List Char) : List Char :=
  ((l.dropWhile Char.isWhitespace).reverse.dropWhile Char.isWhitespace).reverse

/-- JS `replace(/\s+/g, " ")`: every maximal whitespace run becomes a single
space (`Char.ofNat 32`). -/
def collapseWs : List Char → List Char
  | [] => []
  | [c] => if c.isWhitespace then [Char.ofNat 32] else [c]
  | c :: d :: cs =>
    if c.isWhitespace then
      if d.isWhitespace then collapseWs (d :: cs)
      else Char.ofNat 32 :: collapseWs (d :: cs)
    else c :: collapseWs (d :: cs)

/-- src/app/page.tsx `normName`: lower-case, trim, strip the characters `.`
(46), `-` (45) and the apostrophe (39), then collapse whitespace runs.
JS `!name` is true for both `null` and the empty string. -/
def normName (name : Option String) : String :=
  match name with
  | none => ""
  | some s =>
    if s = "" then ""
    else
      String.mk (collapseWs ((jsTrim ((s.data).map Char.toLower)).filter
        (fun c => !(c == Char.ofNat 46 || c == Char.ofNat 45 || c == Char.ofNat 39))))

/-- JS non-global `String.prototype.replace` with an effectively literal
pattern: replace the first occurrence only; with no occurrence the string is
unchanged. -/
def replaceFirst (pat rep : List Char) : List Char → List Char
  | [] => if pat.isPrefixOf ([] : List Char) then rep else []
  | c :: cs =>
    if pat.isPrefixOf (c :: cs) then rep ++ (c :: cs).drop pat.length
    else c :: replaceFirst pat rep cs

/-- src/app/page.tsx `normStat`: lower-case, trim, then four first-occurrence
synonym rewrites (the input is already lower-cased, so the `/i` flags are
inert and literal substring matching suffices). -/
def normStat (stat : String) : String :=
  String.mk
    (replaceFirst (("pts + rebs + asts").data) (("pts + rebs + asts").data)
      (replaceFirst (("pts + reb + ast").data) (("pts + rebs + asts").data)
        (replaceFirst (("3-pointers").data) (("3-pointers").data)
          (replaceFirst (("three pointers made").data) (("3-pointers made").data)
            (jsTrim ((stat.data).map Char.toLower))))))

/-- src/app/page.tsx `makeMergeKey`. -/
def makeMergeKey (p : Prop') : String :=
  normName (p.player_name) ++ ("||") ++ normStat (p.stat_type) ++ ("||") ++ p.sport_id

/-- One per-source slot of a `MergedRow`. -/
structure SlotData where
  line : Option ℚ
  over : Option String
  under : Option String
  updated_at : String
  prop : Prop'
  deriving DecidableEq, Repr

/-- src/app/page.tsx `MergedRow`: one row per player+stat+sport, with
per-source data in an insertion-ordered record. -/
structure MergedRow where
  key : String
  player_name : String
  sport_id : String
  stat_type : String
  game_display : String
  team_abbr : String
  sources : List (String × SlotData)
  latestUpdate : String
  deriving DecidableEq, Repr

/-- JS `<` on strings, code-unit lexicographic, on char lists. -/
def jsLtL : List Char → List Char → Bool
  | [], [] => false
  | [], _ :: _ => true
  | _ :: _, [] => false
  | a :: as, b :: bs =>
    if a < b then true else if b < a then false else jsLtL as bs

/-- JS `a < b` on strings (the dashboard compares ISO timestamp strings with
`>`, which for these ASCII strings is exactly code-unit lexicographic
order). -/
def tsLt (a b : String) : Bool := jsLtL (a.data) (b.data)

/-- `p.source || 'underdog'`. -/
def srcOf (p : Prop') : String := jsStr (p.source) ("underdog")

/-- The slot stored for one record. -/
def mkSlot (p : Prop') : SlotData :=
  { line := p.stat_value, over := p.over_price, under := p.under_price,
    updated_at := p.updated_at, prop := p }

/-- The per-record mutation of the (found or freshly created) row: replace the
source slot when absent or strictly newer, then bump `latestUpdate` and
overwrite `game_display` (non-empty values only) when strictly newer. -/
def updateRow (row : MergedRow) (src : String) (p : Prop') : MergedRow :=
  let row1 :=
    match objGet (row.sources) src with
    | none => { row with sources := objSet (row.sources) src (mkSlot p) }
    | some slot =>
      if tsLt (slot.updated_at) (p.updated_at) then
        { row with sources := objSet (row.sources) src (mkSlot p) }
      else row
  if tsLt (row1.latestUpdate) (p.updated_at) then
    { row1 with latestUpdate := p.updated_at,
                game_display := jsStr (p.game_display) (row1.game_display) }
  else row1

/-- A fresh row seeded from the first record of its merge key. -/
def newRow (key : String) (p : Prop') : MergedRow :=
  { key := key, player_name := jsStr (p.player_name) ("—"),
    sport_id := p.sport_id, stat_type := p.stat_type,
    game_display := jsStr (p.game_display) ("—"),
    team_abbr := jsStr (p.team_abbr) (""),
    sources := [], latestUpdate := p.updated_at }

/-- One iteration of the `merged` loop body: skip disabled sources, fetch or
create the row at the merge key, apply `updateRow`. -/
def mergeStep (enabled : String → Bool) (m : List (String × MergedRow))
    (p : Prop') : List (String × MergedRow) :=
  let src := srcOf p
  if enabled src then
    let key := makeMergeKey p
    let row :=
      match objGet m key with
      | some r => r
      | none => newRow key p
    objSet m key (updateRow row src p)
  else m

/-- src/app/page.tsx `merged`: fold the record list into the key-indexed map
of merged rows. -/
def merge (enabled : String → Bool) (props : List Prop') :
    List (String × MergedRow) :=
  props.foldl (mergeStep enabled) []

/-- Supabase realtime event kinds. -/
inductive EventType
  | INSERT
  | UPDATE
  | DELETE
  deriving DecidableEq, Repr

/-- `payload.old` is `Partial<Prop>`: even the id may be absent. -/
structure PartialProp where
  id : Option String
  deriving DecidableEq, Repr

/-- A `postgres_changes` notification payload. -/
structure ChangePayload where
  eventType : EventType
  new : Option Prop'
  old : Option PartialProp
  deriving DecidableEq, Repr

/-- `oldProp?.id || newProp?.id || ''`. -/
def deleteTarget (pl : ChangePayload) : String :=
  jsStr ((pl.old).bind (fun o => o.id)) (jsStr ((pl.new).map (fun p => p.id)) (""))

/-- The snapshot-store effect of one realtime notification (the
`postgres_changes` handler in src/app/page.tsx, store part only).  On
INSERT/UPDATE the source dereferences `newProp.id`; a payload with
`new = null` on those events would fault in JS and is modelled as leaving the
store unchanged. -/
def applyChange (store : List (String × Prop')) (pl : ChangePayload) :
    List (String × Prop') :=
  if pl.eventType = EventType.DELETE ∨
      (pl.new).map (fun p => p.status) = some ("removed") then
    objDelete store (deleteTarget pl)
  else
    match pl.new with
    | some p => objSet store (p.id) p
    | none => store

/-- The sortable columns (src/app/page.tsx `SortField`). -/
inductive SortField
  | player_name
  | stat_type
  | line
  | updated_at
  deriving DecidableEq, Repr

/-- `Object.values(a.sources)[0]?.line ?? 0`. -/
def firstLine (r : MergedRow) : ℚ :=
  match r.sources with
  | [] => 0
  | e :: _ => (e.2.line).getD 0

/-- The comparator body shared by every branch of the sort switch:
`aVal < bVal ? (asc ? -1 : 1) : aVal > bVal ? (asc ? 1 : -1) : 0`,
parameterized by the JS `<` of the compared value type. -/
def cmpBy {α : Type} (ltb : α → α → Bool) (asc : Bool) (x y : α) : Int :=
  if ltb x y then (if asc then -1 else 1)
  else if ltb y x then (if asc then 1 else -1)
  else 0

/-- JS `<` on numbers, for the line values. -/
def numLt (p q : ℚ) : Bool := decide (p < q)

/-- The sort comparator of src/app/page.tsx `filtered`. -/
def cmpRows (f : SortField) (asc : Bool) (a b : MergedRow) : Int :=
  match f with
  | SortField.player_name => cmpBy tsLt asc (a.player_name) (b.player_name)
  | SortField.stat_type => cmpBy tsLt asc (a.stat_type) (b.stat_type)
  | SortField.line => cmpBy numLt asc (firstLine a) (firstLine b)
  | SortField.updated_at => cmpBy tsLt asc (a.latestUpdate) (b.latestUpdate)

/-- The keys of an association list are pairwise distinct.  Every map the
merge fold builds satisfies this. -/
def nodupKeys {α : Type} (l : List (String × α)) : Prop :=
  (l.map Prod.fst).Nodup

/-- The sources record produced from `row` by one record `p` of source `src`:
replace the slot when absent or strictly newer, otherwise keep it.  This is
the `row.sources` part of `updateRow`, pulled out for reasoning. -/
def newSources (row : MergedRow) (src : String) (p : Prop') :
    List (String × SlotData) :=
  match objGet (row.sources) src with
  | none => objSet (row.sources) src (mkSlot p)
  | some slot =>
    if tsLt (slot.updated_at) (p.updated_at) then
      objSet (row.sources) src (mkSlot p)
    else row.sources

/-- The row the merge loop works on for record `p`: the row found at `p`'s
merge key, or a fresh one. -/
def foundRow (m : List (String × MergedRow)) (p : Prop') : MergedRow :=
  match objGet m (makeMergeKey p) with
  | some r => r
  | none => newRow (makeMergeKey p) p

/-- The display attributes of a merged row that `updateRow` never touches. -/
def display (r : MergedRow) : String × String × String × String :=
  (r.player_name, r.stat_type, r.sport_id, r.team_abbr)

/-- The per-row invariant of the merge fold: a non-empty, key-distinct
sources record whose timestamps are all bounded by `latestUpdate`, with the
bound attained by some slot — i.e. `latestUpdate` is the maximum of the slot
timestamps. -/
def rowInv (row : MergedRow) : Prop :=
  nodupKeys (row.sources) ∧ row.sources ≠ [] ∧
  (∀ e ∈ row.sources, tsLt (row.latestUpdate) (e.2.updated_at) = false) ∧
  (∃ e ∈ row.sources, e.2.updated_at = row.latestUpdate)

/-- After the fold has processed a record list, every enabled record has a
row whose slot for its source and whose `latestUpdate` are at least as new as
the record itself. -/
def processedInv (en : String → Bool) (l : List Prop')
    (m : List (String × MergedRow)) : Prop :=
  ∀ p ∈ l, en (srcOf p) = true →
    ∃ row, objGet m (makeMergeKey p) = some row ∧
      tsLt (row.latestUpdate) (p.updated_at) = false ∧
      ∃ slot, objGet (row.sources) (srcOf p) = some slot ∧
        tsLt (slot.updated_at) (p.updated_at) = false

/-! ### Concrete inputs used by the example claims and counterexamples -/

/-- An enabled-source set with every source on. -/
def enAll : String → Bool := fun _ => true

/-- A baseline active record; concrete inputs below override its fields. -/
def baseProp : Prop' :=
  { id := "a1", sport_id := "NBA", stat_type := "Points",
    stat_value := some 25.5, over_price := none, under_price := none,
    status := "active", player_name := some "LeBron James",
    team_abbr := none, game_display := none,
    updated_at := "2024-01-01T00:00:00Z", source := some "underdog" }

/-- The underdog record of the spec's cross-source example, at timestamp
`t`. -/
def recUD (t : String) : Prop' :=
  { baseProp with updated_at := t }

/-- The kalshi record of the spec's cross-source example, at timestamp
`t`. -/
def recKAL (t : String) : Prop' :=
  { baseProp with
    id := "b1"
    stat_type := "points"
    updated_at := t
    source := some "kalshi" }

/-- C1 counterexample input: first record, punctuated player name. -/
def cp1 : Prop' :=
  { baseProp with player_name := some "A.B." }

/-- C1 counterexample input: later record, same normalized name spelled
differently, strictly newer timestamp. -/
def cp2 : Prop' :=
  { baseProp with
    id := "b1"
    player_name := some "AB"
    source := some "kalshi"
    updated_at := "2024-01-02T00:00:00Z" }

/-- C3 counterexample input: player name ending in a pipe character. -/
def cq1 : Prop' :=
  { baseProp with
    player_name := some "a|"
    stat_type := "b"
    sport_id := "c" }

/-- C3 counterexample input: pipe moved into the stat type — a different
triple with the same merge key. -/
def cq2 : Prop' :=
  { baseProp with
    player_name := some "a"
    stat_type := "|b"
    sport_id := "c" }

/-- The merged row after the first record of the C4 example. -/
def c4Row1 (t1 : String) : MergedRow :=
  { key := "lebron james||points||NBA", player_name := "LeBron James",
    sport_id := "NBA", stat_type := "Points", game_display := "—",
    team_abbr := "", sources := [(("underdog"), mkSlot (recUD t1))],
    latestUpdate := t1 }

/-- The merged row the C4 example must produce. -/
def c4Row (t1 t2 : String) : MergedRow :=
  { key := "lebron james||points||NBA", player_name := "LeBron James",
    sport_id := "NBA", stat_type := "Points", game_display := "—",
    team_abbr := "",
    sources := [(("underdog"), mkSlot (recUD t1)), (("kalshi"), mkSlot (recKAL t2))],
    latestUpdate := t2 }

/-- A slot holding only an over price (no line value). -/
def slotOver (price : String) : SlotData :=
  { line := none, over := some price, under := none,
    updated_at := "2024-01-01T00:00:00Z",
    prop := { baseProp with over_price := some price, stat_value := none } }

/-- A slot with a concrete line value and no prices. -/
def slotLine (q : ℚ) : SlotData :=
  { line := some q, over := none, under := none,
    updated_at := "2024-01-01T00:00:00Z",
    prop := { baseProp with stat_value := some q } }

/-- A merged-row shape for the sort-comparator claims. -/
def mkViewRow (srcs : List (String × SlotData)) : MergedRow :=
  { key := "k1", player_name := "P", sport_id := "NBA", stat_type := "Points",
    game_display := "—", team_abbr := "", sources := srcs,
    latestUpdate := "2024-01-01T00:00:00Z" }

/-- C9 row with over price +150 (and no line). -/
def rowPlus : MergedRow := mkViewRow [(("underdog"), slotOver ("+150"))]

/-- C9 row with over price -110 (and no line). -/
def rowMinus : MergedRow := mkViewRow [(("underdog"), slotOver ("-110"))]

/-- C9 row whose first slot has no line value. -/
def rowNoLine : MergedRow := mkViewRow [(("kalshi"), slotOver ("+100"))]

/-- C9 row whose first slot has line 2. -/
def rowLine2 : MergedRow := mkViewRow [(("kalshi"), slotLine 2)]

/-- An even newer copy of `cp2`, used as an already-present slot. -/
def cp3 : Prop' :=
  { cp2 with updated_at := "2024-01-03T00:00:00Z" }

/-- A concrete INSERT notification. -/
def plIns : ChangePayload :=
  { eventType := EventType.INSERT, new := some baseProp, old := none }

/-- A concrete DELETE notification for an id absent from `store1`. -/
def plDel : ChangePayload :=
  { eventType := EventType.DELETE, new := none, old := some { id := some "zzz" } }

/-- A DELETE notification carrying no id at all. -/
def plDelEmpty : ChangePayload :=
  { eventType := EventType.DELETE, new := none, old := none }

/-- A one-record snapshot store. -/
def store1 : List (String × Prop') := [(("a1"), baseProp)]

/-- The row `merge` builds from the single record `baseProp`. -/
def c5Row : MergedRow :=
  updateRow (newRow (makeMergeKey baseProp) baseProp) (srcOf baseProp) baseProp

/-! ### Association-list lemmas -/

theorem objGet_nil {α : Type} (k : String) :
    objGet ([] : List (String × α)) k = none := rfl

theorem objGet_cons {α : Type} (e : String × α) (es : List (String × α))
    (k : String) :
    objGet (e :: es) k = if e.1 = k then some e.2 else objGet es k := by
  by_cases h : e.1 = k
  · simp [objGet, List.find?_cons, h]
  · simp [objGet, List.find?_cons, h]

theorem objGet_objSet_self {α : Type} (l : List (String × α)) (k : String)
    (v : α) : objGet (objSet l k v) k = some v := by
  induction l with
  | nil => simp [objSet, objGet_cons]
  | cons e es ih =>
    by_cases h : e.1 = k
    · simp [objSet, h, objGet_cons]
    · simp [objSet, h, objGet_cons, ih]

theorem objGet_objSet_ne {α : Type} (l : List (String × α)) (k k' : String)
    (v : α) (h : k' ≠ k) : objGet (objSet l k v) k' = objGet l k' := by
  have hkk : ¬(k = k') := fun hx => h hx.symm
  induction l with
  | nil => simp [objSet, objGet_cons, hkk]
  | cons e es ih =>
    by_cases he : e.1 = k
    · simp [objSet, he, objGet_cons, hkk]
    · simp [objSet, he, objGet_cons, ih]

theorem objSet_eq_of_objGet {α : Type} (l : List (String × α)) (k : String)
    (v : α) (h : objGet l k = some v) : objSet l k v = l := by
  induction l with
  | nil => simp [objGet_nil] at h
  | cons e es ih =>
    by_cases he : e.1 = k
    · rw [objGet_cons, if_pos he] at h
      have hv : e.2 = v := Option.some_injective _ h
      have hs : objSet (e :: es) k v = (k, v) :: es := by simp [objSet, he]
      rw [hs, ← hv, ← he]
    · rw [objGet_cons, if_neg he] at h
      simp [objSet, he, ih h]

theorem mem_objSet_elim {α : Type} (l : List (String × α)) (k : String)
    (v : α) (x : String × α) (h : x ∈ objSet l k v) : x = (k, v) ∨ x ∈ l := by
  induction l with
  | nil => simpa [objSet] using h
  | cons e es ih =>
    by_cases he : e.1 = k
    · rw [objSet, if_pos (by simp [he])] at h
      rcases List.mem_cons.mp h with h | h
      · exact Or.inl h
      · exact Or.inr (List.mem_cons_of_mem _ h)
    · rw [objSet, if_neg (by simp [he])] at h
      rcases List.mem_cons.mp h with h | h
      · exact Or.inr (h ▸ List.mem_cons_self _ _)
      · rcases ih h with h | h
        · exact Or.inl h
        · exact Or.inr (List.mem_cons_of_mem _ h)

theorem self_mem_objSet {α : Type} (l : List (String × α)) (k : String)
    (v : α) : (k, v) ∈ objSet l k v := by
  induction l with
  | nil => simp [objSet]
  | cons e es ih =>
    by_cases he : e.1 = k
    · simp [objSet, he]
    · rw [objSet, if_neg (by simp [he])]
      exact List.mem_cons_of_mem _ ih

theorem mem_objSet_of_mem {α : Type} (l : List (String × α)) (k : String)
    (v : α) (x : String × α) (h : x ∈ l) (hk : x.1 ≠ k) :
    x ∈ objSet l k v := by
  induction l with
  | nil => simp at h
  | cons e es ih =>
    by_cases he : e.1 = k
    · rw [objSet, if_pos (by simp [he])]
      rcases List.mem_cons.mp h with h | h
      · exact absurd (h ▸ he) hk
      · exact List.mem_cons_of_mem _ h
    · rw [objSet, if_neg (by simp [he])]
      rcases List.mem_cons.mp h with h | h
      · exact h ▸ List.mem_cons_self _ _
      · exact List.mem_cons_of_mem _ (ih h)

theorem keys_objSet_of_none {α : Type} (l : List (String × α)) (k : String)
    (v : α) (h : objGet l k = none) :
    (objSet l k v).map Prod.fst = l.map Prod.fst ++ [k] := by
  induction l with
  | nil => simp [objSet]
  | cons e es ih =>
    rw [objGet_cons] at h
    by_cases he : e.1 = k
    · simp [he] at h
    · rw [if_neg he] at h
      rw [objSet, if_neg (by simp [he])]
      simp [ih h]

theorem keys_objSet_of_some {α : Type} (l : List (String × α)) (k : String)
    (v w : α) (h : objGet l k = some w) :
    (objSet l k v).map Prod.fst = l.map Prod.fst := by
  induction l with
  | nil => simp [objGet_nil] at h
  | cons e es ih =>
    rw [objGet_cons] at h
    by_cases he : e.1 = k
    · rw [objSet, if_pos (by simp [he])]
      simp [he]
    · rw [if_neg he] at h
      rw [objSet, if_neg (by simp [he])]
      simp [ih h]

theorem objGet_eq_none_of_not_mem {α : Type} (l : List (String × α))
    (k : String) (h : k ∉ l.map Prod.fst) : objGet l k = none := by
  induction l with
  | nil => rfl
  | cons e es ih =>
    simp only [List.map_cons, List.mem_cons] at h
    push_neg at h
    rw [objGet_cons, if_neg (fun hx => h.1 hx.symm)]
    exact ih h.2

theorem objGet_isSome_of_mem_keys {α : Type} (l : List (String × α))
    (k : String) (h : k ∈ l.map Prod.fst) : ∃ v, objGet l k = some v := by
  induction l with
  | nil => simp at h
  | cons e es ih =>
    rw [List.map_cons, List.mem_cons] at h
    by_cases he : e.1 = k
    · exact ⟨e.2, by rw [objGet_cons, if_pos he]⟩
    · have hm : k ∈ es.map Prod.fst := by
        rcases h with h | h
        · exact absurd h.symm he
        · exact h
      rcases ih hm with ⟨w, hw⟩
      exact ⟨w, by rw [objGet_cons, if_neg he]; exact hw⟩

theorem nodupKeys_objSet {α : Type} (l : List (String × α)) (k : String)
    (v : α) (h : nodupKeys l) : nodupKeys (objSet l k v) := by
  unfold nodupKeys at h ⊢
  cases hg : objGet l k with
  | none =>
    rw [keys_objSet_of_none l k v hg]
    have hk : k ∉ l.map Prod.fst := by
      intro hmem
      rcases objGet_isSome_of_mem_keys l k hmem with ⟨w, hw⟩
      rw [hg] at hw
      exact Option.noConfusion hw
    simp [List.nodup_append, h, hk]
  | some w => rw [keys_objSet_of_some l k v w hg]; exact h

/-! ### Order lemmas for the JS string comparison -/

theorem jsLtL_irrefl (l : List Char) : jsLtL l l = false := by
  induction l with
  | nil => rfl
  | cons a as ih => simp [jsLtL, lt_irrefl, ih]

theorem tsLt_irrefl (s : String) : tsLt s s = false := jsLtL_irrefl _

theorem jsLtL_trans {a b c : List Char} (h1 : jsLtL a b = true)
    (h2 : jsLtL b c = true) : jsLtL a c = true := by
  induction a generalizing b c with
  | nil =>
    cases b with
    | nil => simp [jsLtL] at h1
    | cons y ys =>
      cases c with
      | nil => simp [jsLtL] at h2
      | cons z zs => rfl
  | cons x xs ih =>
    cases b with
    | nil => simp [jsLtL] at h1
    | cons y ys =>
      cases c with
      | nil => simp [jsLtL] at h2
      | cons z zs =>
        rw [jsLtL] at h1 h2 ⊢
        by_cases hxy : x < y
        · rw [if_pos hxy] at h1
          by_cases hyz : y < z
          · rw [if_pos (lt_trans hxy hyz)]
          · by_cases hzy : z < y
            · rw [if_pos hzy, if_neg hyz] at h2
              simp at h2
            · have hyz2 : y = z := le_antisymm (not_lt.mp hzy) (not_lt.mp hyz)
              rw [if_pos (hyz2 ▸ hxy)]
        · rw [if_neg hxy] at h1
          by_cases hyx : y < x
          · rw [if_pos hyx] at h1
            simp at h1
          · rw [if_neg hyx] at h1
            have hxy2 : x = y := le_antisymm (not_lt.mp hyx) (not_lt.mp hxy)
            by_cases hyz : y < z
            · rw [if_pos (hxy2 ▸ hyz)]
            · rw [if_neg hyz] at h2
              by_cases hzy : z < y
              · rw [if_pos hzy] at h2
                simp at h2
              · rw [if_neg hzy] at h2
                rw [if_neg (hxy2 ▸ hyz), if_neg (hxy2 ▸ hzy)]
                exact ih h1 h2

theorem tsLt_trans {a b c : String} (h1 : tsLt a b = true)
    (h2 : tsLt b c = true) : tsLt a c = true := jsLtL_trans h1 h2

theorem jsLtL_le_trans {a b c : List Char} (h1 : jsLtL a b = false)
    (h2 : jsLtL b c = false) : jsLtL a c = false := by
  induction a generalizing b c with
  | nil =>
    cases b with
    | nil =>
      cases c with
      | nil => rfl
      | cons z zs => simp [jsLtL] at h2
    | cons y ys => simp [jsLtL] at h1
  | cons x xs ih =>
    cases b with
    | nil =>
      cases c with
      | nil => rfl
      | cons z zs => simp [jsLtL] at h2
    | cons y ys =>
      cases c with
      | nil => rfl
      | cons z zs =>
        rw [jsLtL] at h1 h2 ⊢
        by_cases hxy : x < y
        · rw [if_pos hxy] at h1
          simp at h1
        · rw [if_neg hxy] at h1
          by_cases hyz : y < z
          · rw [if_pos hyz] at h2
            simp at h2
          · rw [if_neg hyz] at h2
            by_cases hyx : y < x
            · -- z ≤ y < x, so ¬ x < z and ¬ (x = z)
              have hzx : z < x := lt_of_le_of_lt (not_lt.mp hyz) hyx
              rw [if_neg (asymm hzx), if_pos hzx]
            · have hxy2 : x = y := le_antisymm (not_lt.mp hyx) (not_lt.mp hxy)
              by_cases hzy : z < y
              · have hzx : z < x := hxy2 ▸ hzy
                rw [if_neg (asymm hzx), if_pos hzx]
              · have hyz2 : y = z := le_antisymm (not_lt.mp hzy) (not_lt.mp hyz)
                rw [if_neg hyx] at h1
                rw [if_neg hzy] at h2
                rw [if_neg (hxy2 ▸ hyz), if_neg (hyz2 ▸ (hxy2 ▸ hyx))]
                exact ih h1 h2

theorem tsLt_le_trans {a b c : String} (h1 : tsLt a b = false)
    (h2 : tsLt b c = false) : tsLt a c = false := jsLtL_le_trans h1 h2

theorem jsLtL_antisymm {a b : List Char} (h1 : jsLtL a b = false)
    (h2 : jsLtL b a = false) : a = b := by
  induction a generalizing b with
  | nil =>
    cases b with
    | nil => rfl
    | cons y ys => simp [jsLtL] at h1
  | cons x xs ih =>
    cases b with
    | nil => simp [jsLtL] at h2
    | cons y ys =>
      rw [jsLtL] at h1 h2
      by_cases hxy : x < y
      · rw [if_pos hxy] at h1
        simp at h1
      · by_cases hyx : y < x
        · rw [if_pos hyx] at h2
          simp at h2
        · have hxy2 : x = y := le_antisymm (not_lt.mp hyx) (not_lt.mp hxy)
          rw [if_neg hxy, if_neg hyx] at h1
          rw [if_neg hyx, if_neg hxy] at h2
          rw [hxy2, ih h1 h2]

theorem tsLt_antisymm {a b : String} (h1 : tsLt a b = false)
    (h2 : tsLt b a = false) : a = b := by
  have := jsLtL_antisymm h1 h2
  cases a
  cases b
  simpa [tsLt] using congrArg String.mk this

theorem tsLt_asymm {a b : String} (h : tsLt a b = true) : tsLt b a = false := by
  by_cases hb : tsLt b a = true
  · have := tsLt_trans h hb
    rw [tsLt_irrefl] at this
    exact Bool.noConfusion this
  · exact Bool.eq_false_iff.mpr hb

theorem tsLt_lt_of_le_of_lt {x y z : String} (h1 : tsLt x y = false)
    (h2 : tsLt x z = true) : tsLt y z = true := by
  by_cases hyz : tsLt y z = true
  · exact hyz
  · have hyz2 : tsLt y z = false := Bool.eq_false_iff.mpr hyz
    have : tsLt x z = false := tsLt_le_trans h1 hyz2
    rw [h2] at this
    exact Bool.noConfusion this

/-! ### Structural lemmas for the merge fold -/

theorem objGet_mem {α : Type} (l : List (String × α)) (k : String) (v : α)
    (h : objGet l k = some v) : (k, v) ∈ l := by
  induction l with
  | nil => simp [objGet_nil] at h
  | cons e es ih =>
    rw [objGet_cons] at h
    by_cases he : e.1 = k
    · rw [if_pos he] at h
      have hv : e.2 = v := Option.some_injective _ h
      have : e = (k, v) := Prod.ext he hv
      exact this ▸ List.mem_cons_self _ _
    · rw [if_neg he] at h
      exact List.mem_cons_of_mem _ (ih h)

theorem objGet_of_mem_nodup {α : Type} (l : List (String × α))
    (x : String × α) (hn : nodupKeys l) (h : x ∈ l) :
    objGet l x.1 = some x.2 := by
  induction l with
  | nil => simp at h
  | cons e es ih =>
    unfold nodupKeys at hn
    rw [List.map_cons, List.nodup_cons] at hn
    rcases List.mem_cons.mp h with h | h
    · rw [h, objGet_cons, if_pos rfl]
    · have hne : e.1 ≠ x.1 := by
        intro hx
        exact hn.1 (hx ▸ List.mem_map_of_mem Prod.fst h)
      rw [objGet_cons, if_neg hne]
      exact ih hn.2 h

theorem objSet_ne_nil {α : Type} (l : List (String × α)) (k : String)
    (v : α) : objSet l k v ≠ [] := by
  cases l with
  | nil => simp [objSet]
  | cons e es =>
    rw [objSet]
    split <;> simp

theorem updateRow_eq (row : MergedRow) (src : String) (p : Prop') :
    updateRow row src p =
      { row with
        sources := newSources row src p
        latestUpdate :=
          if tsLt (row.latestUpdate) (p.updated_at) then p.updated_at
          else row.latestUpdate
        game_display :=
          if tsLt (row.latestUpdate) (p.updated_at) then
            jsStr (p.game_display) (row.game_display)
          else row.game_display } := by
  cases hg : objGet (row.sources) src with
  | none =>
    by_cases h2 : tsLt (row.latestUpdate) (p.updated_at) = true
    · simp [updateRow, newSources, hg, h2]
    · simp [updateRow, newSources, hg, Bool.eq_false_iff.mpr h2]
  | some slot =>
    by_cases hc : tsLt (slot.updated_at) (p.updated_at) = true
    · by_cases h2 : tsLt (row.latestUpdate) (p.updated_at) = true
      · simp [updateRow, newSources, hg, hc, h2]
      · simp [updateRow, newSources, hg, hc, Bool.eq_false_iff.mpr h2]
    · by_cases h2 : tsLt (row.latestUpdate) (p.updated_at) = true
      · simp [updateRow, newSources, hg, Bool.eq_false_iff.mpr hc, h2]
      · simp [updateRow, newSources, hg, Bool.eq_false_iff.mpr hc,
          Bool.eq_false_iff.mpr h2]

theorem display_updateRow (row : MergedRow) (src : String) (p : Prop') :
    display (updateRow row src p) = display row := by
  rw [updateRow_eq]
  rfl

theorem mergeStep_disabled (en : String → Bool) (m : List (String × MergedRow))
    (p : Prop') (hen : en (srcOf p) = false) : mergeStep en m p = m := by
  simp [mergeStep, hen]

theorem mergeStep_enabled (en : String → Bool) (m : List (String × MergedRow))
    (p : Prop') (hen : en (srcOf p) = true) :
    mergeStep en m p =
      objSet m (makeMergeKey p) (updateRow (foundRow m p) (srcOf p) p) := by
  simp [mergeStep, foundRow, hen]

theorem objGet_mergeStep_self (en : String → Bool)
    (m : List (String × MergedRow)) (p : Prop') (hen : en (srcOf p) = true) :
    objGet (mergeStep en m p) (makeMergeKey p) =
      some (updateRow (foundRow m p) (srcOf p) p) := by
  rw [mergeStep_enabled en m p hen]
  exact objGet_objSet_self _ _ _

theorem objGet_mergeStep_ne (en : String → Bool)
    (m : List (String × MergedRow)) (p : Prop') (k : String)
    (hk : k ≠ makeMergeKey p) :
    objGet (mergeStep en m p) k = objGet m k := by
  cases hen : en (srcOf p) with
  | false => rw [mergeStep_disabled en m p hen]
  | true =>
    rw [mergeStep_enabled en m p hen]
    exact objGet_objSet_ne _ _ _ _ hk

theorem objGet_newSources_self (row : MergedRow) (src : String) (p : Prop')
    (slot : SlotData) (hs : objGet (row.sources) src = some slot) :
    objGet (newSources row src p) src =
      some (if tsLt (slot.updated_at) (p.updated_at) then mkSlot p else slot) := by
  unfold newSources
  rw [hs]
  by_cases hc : tsLt (slot.updated_at) (p.updated_at) = true
  · simp only [hc, if_true]
    exact objGet_objSet_self _ _ _
  · have hc2 : tsLt (slot.updated_at) (p.updated_at) = false :=
      Bool.eq_false_iff.mpr hc
    simp only [hc2, Bool.false_eq_true, if_false]
    exact hs

theorem objGet_newSources_none (row : MergedRow) (src : String) (p : Prop')
    (hs : objGet (row.sources) src = none) :
    objGet (newSources row src p) src = some (mkSlot p) := by
  unfold newSources
  rw [hs]
  exact objGet_objSet_self _ _ _

theorem objGet_newSources_ne (row : MergedRow) (src s : String) (p : Prop')
    (hss : s ≠ src) :
    objGet (newSources row src p) s = objGet (row.sources) s := by
  cases hg : objGet (row.sources) src with
  | none =>
    simp only [newSources, hg]
    exact objGet_objSet_ne _ _ _ _ hss
  | some slot =>
    by_cases hc : tsLt (slot.updated_at) (p.updated_at) = true
    · simp only [newSources, hg, hc, if_true]
      exact objGet_objSet_ne _ _ _ _ hss
    · simp [newSources, hg, Bool.eq_false_iff.mpr hc]

theorem mem_newSources_elim (row : MergedRow) (src : String) (p : Prop')
    (x : String × SlotData) (h : x ∈ newSources row src p) :
    x = (src, mkSlot p) ∨ x ∈ row.sources := by
  cases hg : objGet (row.sources) src with
  | none =>
    simp only [newSources, hg] at h
    exact mem_objSet_elim _ _ _ _ h
  | some slot =>
    by_cases hc : tsLt (slot.updated_at) (p.updated_at) = true
    · simp only [newSources, hg, hc, if_true] at h
      exact mem_objSet_elim _ _ _ _ h
    · simp only [newSources, hg, Bool.eq_false_iff.mpr hc,
        Bool.false_eq_true, if_false] at h
      exact Or.inr h

theorem nodupKeys_newSources (row : MergedRow) (src : String) (p : Prop')
    (h : nodupKeys (row.sources)) : nodupKeys (newSources row src p) := by
  cases hg : objGet (row.sources) src with
  | none =>
    simp only [newSources, hg]
    exact nodupKeys_objSet _ _ _ h
  | some slot =>
    by_cases hc : tsLt (slot.updated_at) (p.updated_at) = true
    · simp only [newSources, hg, hc, if_true]
      exact nodupKeys_objSet _ _ _ h
    · simp only [newSources, hg, Bool.eq_false_iff.mpr hc,
        Bool.false_eq_true, if_false]
      exact h

theorem newSources_ne_nil (row : MergedRow) (src : String) (p : Prop')
    (h : row.sources ≠ []) : newSources row src p ≠ [] := by
  cases hg : objGet (row.sources) src with
  | none =>
    simp only [newSources, hg]
    exact objSet_ne_nil _ _ _
  | some slot =>
    by_cases hc : tsLt (slot.updated_at) (p.updated_at) = true
    · simp only [newSources, hg, hc, if_true]
      exact objSet_ne_nil _ _ _
    · simp only [newSources, hg, Bool.eq_false_iff.mpr hc,
        Bool.false_eq_true, if_false]
      exact h

/-! ### Snapshot-store lemmas -/

theorem objDelete_no_op {α : Type} (l : List (String × α)) (k : String)
    (h : ∀ e ∈ l, e.1 ≠ k) : objDelete l k = l := by
  induction l with
  | nil => rfl
  | cons e es ih =>
    unfold objDelete
    rw [List.filter_cons_of_pos (by simp [h e (List.mem_cons_self _ _)])]
    have := ih (fun x hx => h x (List.mem_cons_of_mem _ hx))
    unfold objDelete at this
    rw [this]

theorem objDelete_idem {α : Type} (l : List (String × α)) (k : String) :
    objDelete (objDelete l k) k = objDelete l k := by
  apply objDelete_no_op
  intro e he
  have := List.of_mem_filter he
  simpa using this

theorem objSet_objSet_same {α : Type} (l : List (String × α)) (k : String)
    (v : α) : objSet (objSet l k v) k v = objSet l k v := by
  induction l with
  | nil => simp [objSet]
  | cons e es ih =>
    by_cases he : e.1 = k
    · simp [objSet, he]
    · simp only [objSet, beq_iff_eq, he, if_false, if_neg he]
      rw [ih]

theorem applyChange_idem (store : List (String × Prop')) (pl : ChangePayload) :
    applyChange (applyChange store pl) pl = applyChange store pl := by
  by_cases hd : (pl.eventType = EventType.DELETE ∨
      (pl.new).map (fun p => p.status) = some ("removed"))
  · simp only [applyChange, if_pos hd]
    exact objDelete_idem _ _
  · simp only [applyChange, if_neg hd]
    cases hn : pl.new with
    | none => rfl
    | some p => exact objSet_objSet_same _ _ _

/-! ### Update/monotonicity lemmas for single rows -/

theorem mem_newSources_of_mem (row : MergedRow) (src : String) (p : Prop')
    (x : String × SlotData) (h : x ∈ row.sources) (hk : x.1 ≠ src) :
    x ∈ newSources row src p := by
  cases hg : objGet (row.sources) src with
  | none =>
    simp only [newSources, hg]
    exact mem_objSet_of_mem _ _ _ _ h hk
  | some slot =>
    by_cases hc : tsLt (slot.updated_at) (p.updated_at) = true
    · simp only [newSources, hg, hc, if_true]
      exact mem_objSet_of_mem _ _ _ _ h hk
    · simp only [newSources, hg, Bool.eq_false_iff.mpr hc,
        Bool.false_eq_true, if_false]
      exact h

theorem updateRow_newRow (k src : String) (p : Prop') :
    updateRow (newRow k p) src p =
      { key := k, player_name := jsStr (p.player_name) ("—"),
        sport_id := p.sport_id, stat_type := p.stat_type,
        game_display := jsStr (p.game_display) ("—"),
        team_abbr := jsStr (p.team_abbr) (""),
        sources := [(src, mkSlot p)], latestUpdate := p.updated_at } := by
  rw [updateRow_eq]
  simp [newSources, newRow, objGet_nil, objSet, tsLt_irrefl]

theorem updateRow_latest_self (row : MergedRow) (src : String) (p : Prop') :
    tsLt ((updateRow row src p).latestUpdate) (p.updated_at) = false := by
  rw [updateRow_eq]
  show tsLt (if tsLt (row.latestUpdate) (p.updated_at) = true then p.updated_at
    else row.latestUpdate) (p.updated_at) = false
  by_cases hc : tsLt (row.latestUpdate) (p.updated_at) = true
  · rw [if_pos hc]
    exact tsLt_irrefl _
  · rw [if_neg hc]
    exact Bool.eq_false_iff.mpr hc

theorem updateRow_slot_self (row : MergedRow) (src : String) (p : Prop') :
    ∃ slot, objGet ((updateRow row src p).sources) src = some slot ∧
      tsLt (slot.updated_at) (p.updated_at) = false := by
  rw [updateRow_eq]
  show ∃ slot, objGet (newSources row src p) src = some slot ∧
    tsLt (slot.updated_at) (p.updated_at) = false
  cases hg : objGet (row.sources) src with
  | none =>
    exact ⟨mkSlot p, objGet_newSources_none row src p hg, tsLt_irrefl _⟩
  | some slot0 =>
    rw [objGet_newSources_self row src p slot0 hg]
    refine ⟨_, rfl, ?_⟩
    by_cases hc : tsLt (slot0.updated_at) (p.updated_at) = true
    · rw [if_pos hc]
      exact tsLt_irrefl _
    · rw [if_neg hc]
      exact Bool.eq_false_iff.mpr hc

theorem updateRow_latest_pred (row : MergedRow) (src : String) (p : Prop')
    (t : String) (h0 : tsLt (row.latestUpdate) t = false) :
    tsLt ((updateRow row src p).latestUpdate) t = false := by
  rw [updateRow_eq]
  show tsLt (if tsLt (row.latestUpdate) (p.updated_at) = true then p.updated_at
    else row.latestUpdate) t = false
  by_cases hc : tsLt (row.latestUpdate) (p.updated_at) = true
  · rw [if_pos hc]
    cases hp : tsLt (p.updated_at) t with
    | false => rfl
    | true =>
      have htr := tsLt_trans hc hp
      rw [h0] at htr
      exact Bool.noConfusion htr
  · rw [if_neg hc]
    exact h0

theorem updateRow_slot_pred (row : MergedRow) (src : String) (p : Prop')
    (s : String) (slot0 : SlotData) (t : String)
    (hs : objGet (row.sources) s = some slot0)
    (h0 : tsLt (slot0.updated_at) t = false) :
    ∃ slot1, objGet ((updateRow row src p).sources) s = some slot1 ∧
      tsLt (slot1.updated_at) t = false := by
  rw [updateRow_eq]
  show ∃ slot1, objGet (newSources row src p) s = some slot1 ∧
    tsLt (slot1.updated_at) t = false
  by_cases hss : s = src
  · subst hss
    rw [objGet_newSources_self row s p slot0 hs]
    refine ⟨_, rfl, ?_⟩
    by_cases hc : tsLt (slot0.updated_at) (p.updated_at) = true
    · rw [if_pos hc]
      cases hp : tsLt ((mkSlot p).updated_at) t with
      | false => rfl
      | true =>
        have htr := tsLt_trans hc hp
        rw [h0] at htr
        exact Bool.noConfusion htr
    · rw [if_neg hc]
      exact h0
  · rw [objGet_newSources_ne row src s p hss]
    exact ⟨slot0, hs, h0⟩

/-! ### The display attributes of a merged row come from the first
contributing record -/

theorem foldl_display_first (en : String → Bool) (l : List Prop') :
    ∀ m k row, objGet (List.foldl (mergeStep en) m l) k = some row →
      (∃ row0, objGet m k = some row0 ∧ display row = display row0) ∨
      (objGet m k = none ∧
        ∃ p, l.find? (fun q => en (srcOf q) && (makeMergeKey q == k)) = some p ∧
          display row = display (newRow k p)) := by
  induction l with
  | nil =>
    intro m k row h
    exact Or.inl ⟨row, h, rfl⟩
  | cons p ps ih =>
    intro m k row h
    rw [List.foldl_cons] at h
    rcases ih (mergeStep en m p) k row h with
      ⟨row0, hget, hdisp⟩ | ⟨hnone, q, hfind, hdisp⟩
    · cases hen : en (srcOf p) with
      | false =>
        rw [mergeStep_disabled en m p hen] at hget
        exact Or.inl ⟨row0, hget, hdisp⟩
      | true =>
        by_cases hk : k = makeMergeKey p
        · subst hk
          rw [objGet_mergeStep_self en m p hen] at hget
          have hrow0 : row0 = updateRow (foundRow m p) (srcOf p) p :=
            (Option.some_injective _ hget).symm
          cases hm : objGet m (makeMergeKey p) with
          | some r0 =>
            refine Or.inl ⟨r0, rfl, ?_⟩
            rw [hdisp, hrow0, display_updateRow]
            simp [foundRow, hm]
          | none =>
            refine Or.inr ⟨rfl, p, ?_, ?_⟩
            · rw [List.find?_cons_of_pos]
              simp [hen]
            · rw [hdisp, hrow0, display_updateRow]
              simp [foundRow, hm]
        · rw [objGet_mergeStep_ne en m p k hk] at hget
          exact Or.inl ⟨row0, hget, hdisp⟩
    · cases hen : en (srcOf p) with
      | false =>
        rw [mergeStep_disabled en m p hen] at hnone
        refine Or.inr ⟨hnone, q, ?_, hdisp⟩
        rw [List.find?_cons_of_neg]
        · exact hfind
        · simp [hen]
      | true =>
        by_cases hk : k = makeMergeKey p
        · subst hk
          rw [objGet_mergeStep_self en m p hen] at hnone
          exact Option.noConfusion hnone
        · rw [objGet_mergeStep_ne en m p k hk] at hnone
          refine Or.inr ⟨hnone, q, ?_, hdisp⟩
          rw [List.find?_cons_of_neg]
          · exact hfind
          · intro hc
            rw [Bool.and_eq_true, beq_iff_eq] at hc
            exact hk hc.2.symm

/-! ### The latest-update timestamp is the maximum of the slot timestamps -/

theorem rowInv_updateRow (row : MergedRow) (src : String) (p : Prop')
    (h : rowInv row) : rowInv (updateRow row src p) := by
  obtain ⟨hnd, hne, hub, e0, he0, he0ts⟩ := h
  rw [updateRow_eq]
  refine ⟨nodupKeys_newSources row src p hnd, newSources_ne_nil row src p hne,
    ?_, ?_⟩
  · -- every slot timestamp is bounded by the new latestUpdate
    intro e he
    show tsLt (if tsLt (row.latestUpdate) (p.updated_at) = true then p.updated_at
      else row.latestUpdate) (e.2.updated_at) = false
    rcases mem_newSources_elim row src p e he with he2 | he2
    · subst he2
      by_cases hc : tsLt (row.latestUpdate) (p.updated_at) = true
      · rw [if_pos hc]
        exact tsLt_irrefl _
      · rw [if_neg hc]
        exact Bool.eq_false_iff.mpr hc
    · have hb := hub e he2
      by_cases hc : tsLt (row.latestUpdate) (p.updated_at) = true
      · rw [if_pos hc]
        cases hp : tsLt (p.updated_at) (e.2.updated_at) with
        | false => rfl
        | true =>
          have htr := tsLt_trans hc hp
          rw [hb] at htr
          exact Bool.noConfusion htr
      · rw [if_neg hc]
        exact hb
  · -- some slot attains the new latestUpdate
    by_cases hc : tsLt (row.latestUpdate) (p.updated_at) = true
    · -- the incoming record is strictly newest: its slot is written
      refine ⟨(src, mkSlot p), ?_, ?_⟩
      · show (src, mkSlot p) ∈ newSources row src p
        cases hg : objGet (row.sources) src with
        | none =>
          simp only [newSources, hg]
          exact self_mem_objSet _ _ _
        | some slot0 =>
          have hrep : tsLt (slot0.updated_at) (p.updated_at) = true :=
            tsLt_lt_of_le_of_lt (hub (src, slot0) (objGet_mem _ _ _ hg)) hc
          simp only [newSources, hg, hrep, if_true]
          exact self_mem_objSet _ _ _
      · show (mkSlot p).updated_at =
          (if tsLt (row.latestUpdate) (p.updated_at) = true then p.updated_at
            else row.latestUpdate)
        rw [if_pos hc]
        rfl
    · -- latestUpdate unchanged: the old witness survives
      have hlat : tsLt (row.latestUpdate) (p.updated_at) = false :=
        Bool.eq_false_iff.mpr hc
      by_cases hes : e0.1 = src
      · -- the witness is the slot of the incoming record's source;
        -- it cannot be replaced, because that would need a strictly
        -- newer timestamp than the row maximum
        have hget : objGet (row.sources) src = some e0.2 :=
          hes ▸ objGet_of_mem_nodup (row.sources) e0 hnd he0
        have hkeep : tsLt (e0.2.updated_at) (p.updated_at) = false := by
          rw [he0ts]
          exact hlat
        have := objGet_newSources_self row src p e0.2 hget
        rw [hkeep] at this
        simp only [Bool.false_eq_true, if_false] at this
        refine ⟨(src, e0.2), objGet_mem _ _ _ this, ?_⟩
        show e0.2.updated_at =
          (if tsLt (row.latestUpdate) (p.updated_at) = true then p.updated_at
            else row.latestUpdate)
        rw [if_neg hc]
        exact he0ts
      · refine ⟨e0, mem_newSources_of_mem row src p e0 he0 hes, ?_⟩
        show e0.2.updated_at =
          (if tsLt (row.latestUpdate) (p.updated_at) = true then p.updated_at
            else row.latestUpdate)
        rw [if_neg hc]
        exact he0ts

theorem rowInv_updateRow_newRow (k src : String) (p : Prop') :
    rowInv (updateRow (newRow k p) src p) := by
  rw [updateRow_newRow]
  refine ⟨by simp [nodupKeys], by simp, ?_, ?_⟩
  · intro e he
    simp only [List.mem_singleton] at he
    subst he
    exact tsLt_irrefl _
  · exact ⟨(src, mkSlot p), List.mem_singleton.mpr rfl, rfl⟩

theorem foldl_rowInv (en : String → Bool) (l : List Prop') :
    ∀ m, (∀ k row, objGet m k = some row → rowInv row) →
      ∀ k row, objGet (List.foldl (mergeStep en) m l) k = some row →
        rowInv row := by
  induction l with
  | nil =>
    intro m hm k row h
    exact hm k row h
  | cons p ps ih =>
    intro m hm k row h
    rw [List.foldl_cons] at h
    refine ih (mergeStep en m p) ?_ k row h
    intro k' row' h'
    cases hen : en (srcOf p) with
    | false =>
      rw [mergeStep_disabled en m p hen] at h'
      exact hm k' row' h'
    | true =>
      by_cases hk : k' = makeMergeKey p
      · subst hk
        rw [objGet_mergeStep_self en m p hen] at h'
        have hrow' : row' = updateRow (foundRow m p) (srcOf p) p :=
          (Option.some_injective _ h').symm
        rw [hrow']
        cases hmk : objGet m (makeMergeKey p) with
        | some r0 =>
          have hf : foundRow m p = r0 := by simp [foundRow, hmk]
          rw [hf]
          exact rowInv_updateRow r0 (srcOf p) p (hm _ r0 hmk)
        | none =>
          have hf : foundRow m p = newRow (makeMergeKey p) p := by
            simp [foundRow, hmk]
          rw [hf]
          exact rowInv_updateRow_newRow _ _ p
      · rw [objGet_mergeStep_ne en m p k' hk] at h'
        exact hm k' row' h'

/-! ### Records already folded in are never undone by a replay -/

theorem processedInv_step (en : String → Bool) (l : List Prop')
    (m : List (String × MergedRow)) (p : Prop')
    (h : processedInv en l m) : processedInv en l (mergeStep en m p) := by
  intro q hq hqen
  obtain ⟨row, hrow, hlat, slot, hslot, hts⟩ := h q hq hqen
  cases hen : en (srcOf p) with
  | false =>
    rw [mergeStep_disabled en m p hen]
    exact ⟨row, hrow, hlat, slot, hslot, hts⟩
  | true =>
    by_cases hk : makeMergeKey q = makeMergeKey p
    · have hf : foundRow m p = row := by
        simp [foundRow, ← hk, hrow]
      refine ⟨updateRow row (srcOf p) p, ?_, ?_, ?_⟩
      · rw [hk, objGet_mergeStep_self en m p hen, hf]
      · exact updateRow_latest_pred row (srcOf p) p (q.updated_at) hlat
      · exact updateRow_slot_pred row (srcOf p) p (srcOf q) slot
          (q.updated_at) hslot hts
    · rw [objGet_mergeStep_ne en m p (makeMergeKey q) hk]
      exact ⟨row, hrow, hlat, slot, hslot, hts⟩

theorem processedInv_self (en : String → Bool)
    (m : List (String × MergedRow)) (p : Prop') (hen : en (srcOf p) = true) :
    ∃ row, objGet (mergeStep en m p) (makeMergeKey p) = some row ∧
      tsLt (row.latestUpdate) (p.updated_at) = false ∧
      ∃ slot, objGet (row.sources) (srcOf p) = some slot ∧
        tsLt (slot.updated_at) (p.updated_at) = false := by
  refine ⟨updateRow (foundRow m p) (srcOf p) p,
    objGet_mergeStep_self en m p hen, ?_, ?_⟩
  · exact updateRow_latest_self (foundRow m p) (srcOf p) p
  · exact updateRow_slot_self (foundRow m p) (srcOf p) p

theorem merge_processedInv (en : String → Bool) (l : List Prop') :
    processedInv en l (merge en l) := by
  induction l using List.reverseRecOn with
  | nil =>
    intro q hq _
    simp at hq
  | append_singleton ps p ih =>
    intro q hq hqen
    have hmrg : merge en (ps ++ [p]) = mergeStep en (merge en ps) p := by
      simp [merge, List.foldl_append]
    rw [hmrg]
    rcases List.mem_append.mp hq with hq | hq
    · exact processedInv_step en ps (merge en ps) p ih q hq hqen
    · have hqp : q = p := by simpa using hq
      subst hqp
      exact processedInv_self en (merge en ps) q hqen

/-! ### Disabled sources contribute nothing -/

theorem foldl_mergeStep_filter (en : String → Bool) (props : List Prop') :
    ∀ m, List.foldl (mergeStep en) m props =
      List.foldl (mergeStep en) m (props.filter (fun p => en (srcOf p))) := by
  induction props with
  | nil => intro m; rfl
  | cons p ps ih =>
    intro m
    by_cases hp : en (srcOf p) = true
    · rw [List.filter_cons_of_pos (by simpa using hp)]
      rw [List.foldl_cons, List.foldl_cons]
      exact ih _
    · rw [List.filter_cons_of_neg (by simpa using hp)]
      rw [List.foldl_cons]
      rw [mergeStep_disabled en m p (Bool.eq_false_iff.mpr hp)]
      exact ih _

/-! ### Merge-key decomposition -/

theorem data_append (a b : String) : (a ++ b).data = a.data ++ b.data := by
  cases a
  cases b
  rfl

theorem string_data_inj {a b : String} (h : a.data = b.data) : a = b := by
  cases a
  cases b
  exact congrArg String.mk h

theorem append_pipe_sep_inj :
    ∀ (a1 : List Char), Char.ofNat 124 ∉ a1 →
      ∀ (a2 : List Char), Char.ofNat 124 ∉ a2 →
        ∀ (r1 r2 : List Char),
          a1 ++ Char.ofNat 124 :: Char.ofNat 124 :: r1 =
            a2 ++ Char.ofNat 124 :: Char.ofNat 124 :: r2 →
          a1 = a2 ∧ r1 = r2 := by
  intro a1
  induction a1 with
  | nil =>
    intro _ a2 h2 r1 r2 h
    cases a2 with
    | nil => simpa using h
    | cons y ys =>
      rw [List.nil_append, List.cons_append] at h
      injection h with hy _
      exact absurd (hy ▸ List.mem_cons_self _ _) h2
  | cons x xs ih =>
    intro h1 a2 h2 r1 r2 h
    cases a2 with
    | nil =>
      rw [List.nil_append, List.cons_append] at h
      injection h with hx _
      exact absurd (hx ▸ List.mem_cons_self _ _) h1
    | cons y ys =>
      rw [List.cons_append, List.cons_append] at h
      injection h with hxy htl
      have hx1 : Char.ofNat 124 ∉ xs := fun hm => h1 (List.mem_cons_of_mem _ hm)
      have hy1 : Char.ofNat 124 ∉ ys := fun hm => h2 (List.mem_cons_of_mem _ hm)
      obtain ⟨ha, hr⟩ := ih hx1 ys hy1 r1 r2 htl
      exact ⟨by rw [hxy, ha], hr⟩

/-! ## Claims -/

/-- C6: a record whose source is disabled contributes nothing to the merge
output — merging with enabled-source set `en` equals merging only the records
whose source is enabled, so a key fed only by disabled records produces no
row at all. -/
theorem c6_source_exclusion (en : String → Bool) (props : List Prop') :
    merge en props = merge en (props.filter (fun p => en (srcOf p))) :=
  foldl_mergeStep_filter en props []

/-- C7: merging a record list with a duplicate of one of its records appended
(same id, identical fields) yields a merged-row map identical to merging the
original list. -/
theorem c7_duplicate_merge_idem (en : String → Bool) (l : List Prop')
    (p : Prop') (hp : p ∈ l) : merge en (l ++ [p]) = merge en l := by
  have hstep : merge en (l ++ [p]) = mergeStep en (merge en l) p := by
    simp [merge, List.foldl_append]
  rw [hstep]
  cases hen : en (srcOf p) with
  | false => exact mergeStep_disabled en (merge en l) p hen
  | true =>
    obtain ⟨row, hrow, hlat, slot, hslot, hts⟩ :=
      merge_processedInv en l p hp hen
    rw [mergeStep_enabled en (merge en l) p hen]
    have hf : foundRow (merge en l) p = row := by simp [foundRow, hrow]
    rw [hf]
    have hupd : updateRow row (srcOf p) p = row := by
      rw [updateRow_eq]
      have hns : newSources row (srcOf p) p = row.sources := by
        simp [newSources, hslot, hts]
      rw [hns, hlat]
      simp
    rw [hupd]
    exact objSet_eq_of_objGet (merge en l) (makeMergeKey p) row hrow

/-- Witness for C7 at a concrete input. -/
theorem c7_duplicate_merge_idem_witness :
    merge enAll ([baseProp] ++ [baseProp]) = merge enAll [baseProp] :=
  c7_duplicate_merge_idem enAll [baseProp] baseProp (List.mem_singleton.mpr rfl)

/-- C2: during a merge fold, a record of a source whose slot already holds a
timestamp at least as new leaves that slot unchanged (ties keep the existing
slot); the slot is replaced with the incoming record's data exactly when the
incoming timestamp is strictly greater. -/
theorem c2_slot_monotonic (en : String → Bool) (m : List (String × MergedRow))
    (p : Prop') (row : MergedRow) (slot : SlotData)
    (hrow : objGet m (makeMergeKey p) = some row)
    (hslot : objGet (row.sources) (srcOf p) = some slot) :
    (tsLt (slot.updated_at) (p.updated_at) = false →
      ∃ row', objGet (mergeStep en m p) (makeMergeKey p) = some row' ∧
        objGet (row'.sources) (srcOf p) = some slot) ∧
    (tsLt (slot.updated_at) (p.updated_at) = true → en (srcOf p) = true →
      ∃ row', objGet (mergeStep en m p) (makeMergeKey p) = some row' ∧
        objGet (row'.sources) (srcOf p) = some (mkSlot p)) := by
  have hf : foundRow m p = row := by simp [foundRow, hrow]
  constructor
  · intro hts
    cases hen : en (srcOf p) with
    | false =>
      rw [mergeStep_disabled en m p hen]
      exact ⟨row, hrow, hslot⟩
    | true =>
      refine ⟨updateRow (foundRow m p) (srcOf p) p,
        objGet_mergeStep_self en m p hen, ?_⟩
      rw [hf, updateRow_eq]
      show objGet (newSources row (srcOf p) p) (srcOf p) = some slot
      rw [objGet_newSources_self row (srcOf p) p slot hslot, hts]
      simp
  · intro hts hen
    refine ⟨updateRow (foundRow m p) (srcOf p) p,
      objGet_mergeStep_self en m p hen, ?_⟩
    rw [hf, updateRow_eq]
    show objGet (newSources row (srcOf p) p) (srcOf p) = some (mkSlot p)
    rw [objGet_newSources_self row (srcOf p) p slot hslot, hts]
    simp

/-- Witness for C2 at a concrete input: an already-newer slot survives the
replay of an older record. -/
theorem c2_slot_monotonic_witness :
    ∃ row', objGet (mergeStep enAll
        [((makeMergeKey cp2), mkViewRow [(("kalshi"), mkSlot cp3)])] cp2)
        (makeMergeKey cp2) = some row' ∧
      objGet (row'.sources) (srcOf cp2) = some (mkSlot cp3) :=
  (c2_slot_monotonic enAll
      [((makeMergeKey cp2), mkViewRow [(("kalshi"), mkSlot cp3)])] cp2
      (mkViewRow [(("kalshi"), mkSlot cp3)]) (mkSlot cp3) rfl rfl).1 (by decide)

/-- C5: every merged row's `latestUpdate` is the maximum of its per-source
slot timestamps: the slot set is non-empty, no slot is newer, and some slot
attains it. -/
theorem c5_latest_is_max (en : String → Bool) (props : List Prop')
    (k : String) (row : MergedRow)
    (h : objGet (merge en props) k = some row) :
    row.sources ≠ [] ∧
    (∀ e ∈ row.sources, tsLt (row.latestUpdate) (e.2.updated_at) = false) ∧
    (∃ e ∈ row.sources, e.2.updated_at = row.latestUpdate) := by
  have hinv := foldl_rowInv en props []
    (by intro k0 r0 h0; rw [objGet_nil] at h0; exact Option.noConfusion h0)
    k row h
  exact ⟨hinv.2.1, hinv.2.2.1, hinv.2.2.2⟩

/-- Witness for C5 at a concrete input. -/
theorem c5_latest_is_max_witness :
    c5Row.sources ≠ [] ∧
    (∀ e ∈ c5Row.sources, tsLt (c5Row.latestUpdate) (e.2.updated_at) = false) ∧
    (∃ e ∈ c5Row.sources, e.2.updated_at = c5Row.latestUpdate) :=
  c5_latest_is_max enAll [baseProp] (makeMergeKey baseProp) c5Row rfl

/-- C8: the change-feed handler tolerates duplicates and absent targets —
applying the same INSERT/UPDATE notification twice equals applying it once,
and a DELETE whose target id is absent from the store is a no-op. -/
theorem c8_change_feed_idem (store : List (String × Prop'))
    (pl : ChangePayload) :
    ((pl.eventType = EventType.INSERT ∨ pl.eventType = EventType.UPDATE) →
      applyChange (applyChange store pl) pl = applyChange store pl) ∧
    (pl.eventType = EventType.DELETE →
      (∀ e ∈ store, e.1 ≠ deleteTarget pl) →
      applyChange store pl = store) := by
  constructor
  · intro _
    exact applyChange_idem store pl
  · intro hevt hstore
    have happ : applyChange store pl = objDelete store (deleteTarget pl) := by
      simp [applyChange, hevt]
    rw [happ]
    exact objDelete_no_op store (deleteTarget pl) hstore

/-- Witness for C8 at concrete inputs. -/
theorem c8_change_feed_idem_witness :
    applyChange (applyChange store1 plIns) plIns = applyChange store1 plIns ∧
      applyChange store1 plDel = store1 :=
  ⟨(c8_change_feed_idem store1 plIns).1 (Or.inl rfl),
   (c8_change_feed_idem store1 plDel).2 rfl (by decide)⟩

/-- C10: a DELETE notification (with no old-record id and no new record)
deletes the store entry keyed by the empty string, so a store with no
empty-string id is left unchanged. -/
theorem c10_empty_id_delete (store : List (String × Prop'))
    (pl : ChangePayload)
    (hevt : pl.eventType = EventType.DELETE)
    (hold : (pl.old).bind (fun o => o.id) = none)
    (hnew : pl.new = none)
    (hstore : ∀ e ∈ store, e.1 ≠ ("")) :
    applyChange store pl = objDelete store ("") ∧
      applyChange store pl = store := by
  have htgt : deleteTarget pl = ("") := by
    simp [deleteTarget, hold, hnew, jsStr]
  have happ : applyChange store pl = objDelete store ("") := by
    simp [applyChange, hevt, htgt]
  exact ⟨happ, by rw [happ]; exact objDelete_no_op store ("") hstore⟩

/-- Witness for C10 at a concrete input. -/
theorem c10_empty_id_delete_witness :
    applyChange store1 plDelEmpty = objDelete store1 ("") ∧
      applyChange store1 plDelEmpty = store1 :=
  c10_empty_id_delete store1 plDelEmpty rfl rfl rfl (by decide)

/-- C9 counterexample: two rows identical except for their over prices
(+150 vs -110) are compared equal by every sort field in both directions —
the view pipeline has no over-price sort and never parses prices when
sorting. -/
theorem c9_counterexample :
    (rowPlus.sources.map (fun e => e.2.over) = [some ("+150")]) ∧
    (rowMinus.sources.map (fun e => e.2.over) = [some ("-110")]) ∧
    cmpRows SortField.player_name true rowPlus rowMinus = 0 ∧
    cmpRows SortField.player_name false rowPlus rowMinus = 0 ∧
    cmpRows SortField.stat_type true rowPlus rowMinus = 0 ∧
    cmpRows SortField.stat_type false rowPlus rowMinus = 0 ∧
    cmpRows SortField.line true rowPlus rowMinus = 0 ∧
    cmpRows SortField.line false rowPlus rowMinus = 0 ∧
    cmpRows SortField.updated_at true rowPlus rowMinus = 0 ∧
    cmpRows SortField.updated_at false rowPlus rowMinus = 0 := by
  decide

/-- C9 amended: the pipeline's sort fields are exactly player name, stat
type, line and updated-at; the only numeric sort is the line sort, which
takes the first slot's line with an absent value treated as 0, so a row with
no line value orders below a row with line 2 under an ascending line sort. -/
theorem c9_line_sort_absent_as_zero :
    (∀ f : SortField, f = SortField.player_name ∨ f = SortField.stat_type ∨
      f = SortField.line ∨ f = SortField.updated_at) ∧
    firstLine rowNoLine = 0 ∧ firstLine rowLine2 = 2 ∧
    cmpRows SortField.line true rowNoLine rowLine2 = -1 ∧
    cmpRows SortField.line false rowNoLine rowLine2 = 1 ∧
    cmpRows SortField.line true rowLine2 rowNoLine = 1 := by
  refine ⟨?_, ?_⟩
  · intro f
    cases f <;> simp
  · decide

/-- C1 counterexample: the second record is strictly newer and shares the
merge key, yet the merged row keeps the first record's player name. -/
theorem c1_counterexample :
    tsLt (cp1.updated_at) (cp2.updated_at) = true ∧
    makeMergeKey cp2 = makeMergeKey cp1 ∧
    (merge enAll [cp1, cp2]).map (fun e => e.2.player_name) = [("A.B.")] ∧
    jsStr (cp2.player_name) ("—") = ("AB") ∧
    ("A.B." : String) ≠ ("AB") := by
  decide

/-- C1 amended: a merged row's player name, stat-type label, sport id and
team abbreviation come from the first contributing record in input order
(not from the most recently updated one); only `game_display` follows the
most recently updated record, being overwritten (non-empty values only)
exactly when the incoming timestamp strictly exceeds the row's current
latest-update timestamp. -/
theorem c1_display_attrs :
    (∀ (en : String → Bool) (props : List Prop') (k : String)
        (row : MergedRow),
      objGet (merge en props) k = some row →
      ∃ p, props.find? (fun q => en (srcOf q) && (makeMergeKey q == k)) =
          some p ∧
        row.player_name = jsStr (p.player_name) ("—") ∧
        row.stat_type = p.stat_type ∧ row.sport_id = p.sport_id ∧
        row.team_abbr = jsStr (p.team_abbr) ("")) ∧
    (∀ (row : MergedRow) (src : String) (p : Prop'),
      (updateRow row src p).game_display =
        (if tsLt (row.latestUpdate) (p.updated_at) then
          jsStr (p.game_display) (row.game_display)
        else row.game_display)) := by
  constructor
  · intro en props k row h
    rcases foldl_display_first en props [] k row h with
      ⟨row0, h0, _⟩ | ⟨_, p, hfind, hdisp⟩
    · rw [objGet_nil] at h0
      exact Option.noConfusion h0
    · simp only [display, newRow, Prod.mk.injEq] at hdisp
      exact ⟨p, hfind, hdisp.1, hdisp.2.1, hdisp.2.2.1, hdisp.2.2.2⟩
  · intro row src p
    rw [updateRow_eq]

/-- Witness for the C1 amended theorem at a concrete input. -/
theorem c1_display_attrs_witness :
    ∃ p, [cp1].find? (fun q => enAll (srcOf q) &&
        (makeMergeKey q == makeMergeKey cp1)) = some p ∧
      (updateRow (newRow (makeMergeKey cp1) cp1) (srcOf cp1) cp1).player_name =
        jsStr (p.player_name) ("—") ∧
      (updateRow (newRow (makeMergeKey cp1) cp1) (srcOf cp1) cp1).stat_type =
        p.stat_type ∧
      (updateRow (newRow (makeMergeKey cp1) cp1) (srcOf cp1) cp1).sport_id =
        p.sport_id ∧
      (updateRow (newRow (makeMergeKey cp1) cp1) (srcOf cp1) cp1).team_abbr =
        jsStr (p.team_abbr) ("") :=
  c1_display_attrs.1 enAll [cp1] (makeMergeKey cp1)
    (updateRow (newRow (makeMergeKey cp1) cp1) (srcOf cp1) cp1) rfl

/-- C3 counterexample: two records with different normalized player names and
different normalized stat types produce the same merge key — the key builder
is not injective over the triples when they contain the pipe character. -/
theorem c3_counterexample :
    makeMergeKey cq1 = makeMergeKey cq2 ∧
    normName (cq1.player_name) ≠ normName (cq2.player_name) ∧
    normStat (cq1.stat_type) ≠ normStat (cq2.stat_type) := by
  decide

/-- C3 amended: `makeMergeKey` is a pure function of the triple (normalized
player name, normalized stat type, raw sport id) — equal triples always give
equal keys — and it is injective over triples whose normalized name and
normalized stat contain no pipe character. -/
theorem c3_key_injective (p q : Prop')
    (h1 : Char.ofNat 124 ∉ (normName (p.player_name)).data)
    (h2 : Char.ofNat 124 ∉ (normStat (p.stat_type)).data)
    (h3 : Char.ofNat 124 ∉ (normName (q.player_name)).data)
    (h4 : Char.ofNat 124 ∉ (normStat (q.stat_type)).data) :
    makeMergeKey p = makeMergeKey q ↔
      (normName (p.player_name) = normName (q.player_name) ∧
        normStat (p.stat_type) = normStat (q.stat_type) ∧
        p.sport_id = q.sport_id) := by
  have hsep : (("||") : String).data = [Char.ofNat 124, Char.ofNat 124] := by
    decide
  have hform : ∀ r : Prop', (makeMergeKey r).data =
      (normName (r.player_name)).data ++ Char.ofNat 124 :: Char.ofNat 124 ::
        ((normStat (r.stat_type)).data ++ Char.ofNat 124 :: Char.ofNat 124 ::
          (r.sport_id).data) := by
    intro r
    rw [makeMergeKey, data_append, data_append, data_append, data_append,
      hsep]
    simp [List.append_assoc]
  constructor
  · intro hkey
    have hd := congrArg String.data hkey
    rw [hform p, hform q] at hd
    obtain ⟨hname, hrest⟩ := append_pipe_sep_inj _ h1 _ h3 _ _ hd
    obtain ⟨hstat, hsport⟩ := append_pipe_sep_inj _ h2 _ h4 _ _ hrest
    exact ⟨string_data_inj hname, string_data_inj hstat,
      string_data_inj hsport⟩
  · rintro ⟨h5, h6, h7⟩
    rw [makeMergeKey, makeMergeKey, h5, h6, h7]

/-- Witness for the C3 amended theorem at a concrete input. -/
theorem c3_key_injective_witness :
    normName (cp1.player_name) = normName (cp2.player_name) ∧
    normStat (cp1.stat_type) = normStat (cp2.stat_type) ∧
    cp1.sport_id = cp2.sport_id :=
  (c3_key_injective cp1 cp2 (by decide) (by decide) (by decide)
    (by decide)).mp (by decide)

/-- C4: merging the spec's two example records (underdog at T1, kalshi at T2,
T2 > T1) with both sources enabled yields exactly one merged row, keyed by
`lebron james||points||NBA`, holding exactly the underdog and kalshi slots,
with `latestUpdate = T2`. -/
theorem c4_example (t1 t2 : String) (h : tsLt t1 t2 = true) :
    merge enAll [recUD t1, recKAL t2] =
      [(("lebron james||points||NBA"), c4Row t1 t2)] := by
  have e3 : updateRow (c4Row1 t1) ("kalshi") (recKAL t2) = c4Row t1 t2 := by
    rw [updateRow_eq]
    have hns : newSources (c4Row1 t1) ("kalshi") (recKAL t2) =
        [(("underdog"), mkSlot (recUD t1)), (("kalshi"), mkSlot (recKAL t2))] :=
      rfl
    rw [hns]
    have hlat : tsLt ((c4Row1 t1).latestUpdate) ((recKAL t2).updated_at) =
        true := h
    rw [if_pos hlat, if_pos hlat]
    rfl
  show List.foldl (mergeStep enAll) [] [recUD t1, recKAL t2] = _
  rw [List.foldl_cons, List.foldl_cons, List.foldl_nil]
  have e1 : mergeStep enAll [] (recUD t1) =
      [(("lebron james||points||NBA"), c4Row1 t1)] := by
    have h0 : mergeStep enAll [] (recUD t1) =
        [((makeMergeKey (recUD t1)),
          updateRow (newRow (makeMergeKey (recUD t1)) (recUD t1))
            (srcOf (recUD t1)) (recUD t1))] := rfl
    rw [h0, updateRow_newRow]
    rfl
  rw [e1]
  have e2 : mergeStep enAll [(("lebron james||points||NBA"), c4Row1 t1)]
      (recKAL t2) =
      [(("lebron james||points||NBA"),
        updateRow (c4Row1 t1) ("kalshi") (recKAL t2))] := rfl
  rw [e2, e3]

/-- Witness for C4 at concrete timestamps. -/
theorem c4_example_witness :
    merge enAll [recUD ("2024-01-01T00:00:00Z"),
        recKAL ("2024-01-02T00:00:00Z")] =
      [(("lebron james||points||NBA"),
        c4Row ("2024-01-01T00:00:00Z") ("2024-01-02T00:00:00Z"))] :=
  c4_example ("2024-01-01T00:00:00Z") ("2024-01-02T00:00:00Z") (by decide)
